import Mathlib

/-!
Shallow embedding of `src/helpers.py` (module `cschesch-helpers`).

Python strings are modelled as `List Char`.  The character tables of
`str.lower`, `str.capitalize` and of the regex class `\w` (Unicode mode)
are modelled exactly on the code points up to 0xFF (ASCII and Latin-1);
code points above 0xFF are outside the modelled input domain (they are
classified as non-word and left unchanged by case mappings).  Everything
else is a direct translation of the Python source.
-/

/-- Converts a Lean string literal to the model's representation of a
Python string (its list of characters). -/
def pstr (s : String) : List Char := s.data

/-- Character-level model of Python `str.lower`, exact on code points up
to 0xFF: the ASCII uppercase letters 65-90 (`A`-`Z`) and the Latin-1
uppercase letters 192-222 except the multiplication sign 215 map 32 code
points up; every other modelled character is unchanged. -/
def pyLowerChar (c : Char) : Char :=
  if 65 ≤ c.toNat ∧ c.toNat ≤ 90 then Char.ofNat (c.toNat + 32)
  else if 192 ≤ c.toNat ∧ c.toNat ≤ 222 ∧ c.toNat ≠ 215 then Char.ofNat (c.toNat + 32)
  else c

/-- Character-level model of the word-character class `\w` of Python
regular expressions in Unicode mode, exact on code points up to 0xFF:
digits 48-57 (`0`-`9`), letters 65-90 (`A`-`Z`) and 97-122 (`a`-`z`),
the underscore 95, and the Latin-1 word characters: the letters 170, 181,
186 and 192-255 except the multiplication sign 215 and the division sign
247, and the numeric characters 178, 179, 185, 188, 189, 190. -/
def pyIsWordChar (c : Char) : Bool :=
  (48 ≤ c.toNat && c.toNat ≤ 57) ||
  (65 ≤ c.toNat && c.toNat ≤ 90) ||
  (97 ≤ c.toNat && c.toNat ≤ 122) ||
  c.toNat = 95 ||
  c.toNat = 170 || c.toNat = 181 || c.toNat = 186 ||
  c.toNat = 178 || c.toNat = 179 || c.toNat = 185 ||
  (188 ≤ c.toNat && c.toNat ≤ 190) ||
  (192 ≤ c.toNat && c.toNat ≤ 255 && c.toNat ≠ 215 && c.toNat ≠ 247)

/-- Python `str.replace` with a one-character pattern and a one-character
replacement, as in `filename.replace(' ', '_')`. -/
def replaceChar (a b : Char) (s : List Char) : List Char :=
  s.map (fun c => if c = a then b else c)

/-- Python `filename.replace('/', '_over_')`. -/
def replaceSlash (s : List Char) : List Char :=
  s.flatMap (fun c => if c = '/' then pstr "_over_" else [c])

/-- Python `re.sub(r'\W+', '', filename)`: replacing every run of
non-word characters by the empty string removes every non-word
character. -/
def removeNonWord (s : List Char) : List Char :=
  s.filter pyIsWordChar

/-- Python `re.sub('_+', '_', filename)`: every maximal run of
underscores collapses to a single underscore.  Processed right to left:
an underscore is dropped whenever the already-collapsed suffix starts
with an underscore, keeping exactly one underscore per run. -/
def collapseUnderscores (s : List Char) : List Char :=
  s.foldr (fun c acc => if c = '_' ∧ acc.head? = some '_' then acc else c :: acc) []

/-- `clean_filename` from `src/helpers.py` (lines 22-41): lower-case,
spaces to underscores, slashes to `_over_`, strip non-word characters,
collapse runs of underscores. -/
def clean_filename (filename : List Char) : List Char :=
  let f1 := replaceChar ' ' '_' (filename.map pyLowerChar)
  let f2 := replaceSlash f1
  let f3 := removeNonWord f2
  collapseUnderscores f3

/-- Character-level model of Python `str.capitalize` applied to a
one-character string: title-case the character.  Exact on code points up
to 0xFF: `a`-`z` (97-122) and the Latin-1 lowercase letters 224-254
except the division sign 247 map 32 code points down, the micro sign 181
maps to the Greek capital Mu 924, the sharp s 223 expands to `Ss`, the
y with diaeresis 255 maps to its capital 376; every other modelled
character is unchanged. -/
def pyTitleChar (c : Char) : List Char :=
  if 97 ≤ c.toNat ∧ c.toNat ≤ 122 then [Char.ofNat (c.toNat - 32)]
  else if c.toNat = 181 then [Char.ofNat 924]
  else if c.toNat = 223 then pstr "Ss"
  else if c.toNat = 255 then [Char.ofNat 376]
  else if 224 ≤ c.toNat ∧ c.toNat ≤ 254 ∧ c.toNat ≠ 247 then [Char.ofNat (c.toNat - 32)]
  else [c]

/-- Python subscripting `string[i]`: raises `IndexError` when the index
is out of range. -/
def pyGetChar (s : List Char) (i : Nat) : Except (List Char) Char :=
  if h : i < s.length then .ok s[i]
  else .error (pstr "IndexError: string index out of range")

/-- Python `str.capitalize`: title-case the first character, lower-case
the rest.  The source only applies it to the one-character string
`string[0]`. -/
def pyCapitalize (s : List Char) : List Char :=
  match s with
  | [] => []
  | c :: rest => pyTitleChar c ++ rest.map pyLowerChar

/-- `Capitalize` from `src/helpers.py` (lines 6-20):
`string[0].capitalize() + string[1:]`. -/
def Capitalize (s : List Char) : Except (List Char) (List Char) := do
  let c ← pyGetChar s 0
  pure (pyCapitalize [c] ++ s.drop 1)

/-- Python `':'.join(parts)`. -/
def joinColon : List (List Char) → List Char
  | [] => []
  | [p] => p
  | p :: q :: rest => p ++ ':' :: joinColon (q :: rest)

/-- The recursion of `generate_lower_order_interactions`, with an extra
fuel argument to make the recursion structural.  Each recursive call of
the source is on a list one element shorter, so instantiating the fuel
with the length of the list (as `generate_lower_order_interactions`
does) never exhausts it: `gloAux_fuel` below shows any fuel at least the
length of the list computes the same result. -/
def gloAux : Nat → List (List Char) → List (List Char)
  | 0, _ => []
  | n + 1, vars_in_interaction =>
    (List.range vars_in_interaction.length).flatMap (fun i =>
      let lower_order := vars_in_interaction.take i ++ vars_in_interaction.drop (i + 1)
      (if lower_order = [] then [] else [joinColon lower_order]) ++
        (if 1 < lower_order.length then gloAux n lower_order else []))

/-- `generate_lower_order_interactions` from `src/helpers.py` (lines
43-67): for each index, leave out one variable at a time; append the
colon-joined reduced term when it is non-empty, then, when more than one
variable is left, recurse into the reduced term. -/
def generate_lower_order_interactions (vars_in_interaction : List (List Char)) :
    List (List Char) :=
  gloAux vars_in_interaction.length vars_in_interaction

/-- Python `cov_name.split(':')`. -/
def splitColon (s : List Char) : List (List Char) :=
  s.foldr (fun c acc =>
    match acc with
    | [] => [[c]]
    | a :: rest => if c = ':' then [] :: a :: rest else (c :: a) :: rest) [[]]

/-- `list(latexdict.keys())`: Python dicts iterate in insertion order;
the dict is modelled as its ordered list of key-value pairs. -/
def dictKeys (d : List (List Char × List Char)) : List (List Char) :=
  d.map Prod.fst

/-- Python `latexdict.get(var, var)`. -/
def dictGetD (d : List (List Char × List Char)) (k : List Char) : List Char :=
  match d with
  | [] => k
  | (k', v) :: rest => if k' = k then v else dictGetD rest k

/-- Python `list.index` for an element of the list (the source only
calls it after the membership test `var in latexdict.keys()`). -/
def listIndex (l : List (List Char)) (x : List Char) : Nat :=
  match l with
  | [] => 0
  | y :: rest => if y = x then 0 else listIndex rest x + 1

/-- The sort key
`-list(latexdict.keys()).index(var) if var in latexdict.keys() else np.inf`,
order-isomorphically recoded into `Nat`: `-i` becomes `len - i` for a
present variable (strictly decreasing in `i`, so ascending orders
agree), and `np.inf` becomes `len + 1`, strictly above `len - i` for
every index `i`; absent variables all share that key, tying exactly as
they tie at infinity (and both Python's `sorted` and the insertion sort
below are stable). -/
def pySortKey (ks : List (List Char)) (v : List Char) : Nat :=
  if v ∈ ks then ks.length - listIndex ks v else ks.length + 1

/-- Stable insertion of one element into a list sorted ascending by
`key`: the element goes before the first element of equal or larger
key, so elements with equal keys keep their original relative order. -/
def insertKeyed (key : List Char → Nat) (x : List Char) :
    List (List Char) → List (List Char)
  | [] => [x]
  | y :: ys => if key x ≤ key y then x :: y :: ys else y :: insertKeyed key x ys

/-- Python `sorted(l, key=key)`: a stable ascending sort. -/
def pySorted (key : List Char → Nat) (l : List (List Char)) : List (List Char) :=
  l.foldr (insertKeyed key) []

/-- The two assertion failures of `generate_covariate_latexdict`, carrying
the data their messages interpolate: the offending covariate together
with the missing interactions `set(lower_order_interactions) -
set(cov_names)` (as a duplicate-free list), or the offending covariate
together with its current and required colon-joined orders. -/
inductive LatexdictError where
  | missingLowerOrder (covName : List Char) (missing : List (List Char))
  | wrongOrder (covName currentOrder correctOrder : List Char)
deriving DecidableEq

/-- `set(l) - set(r)` as the duplicate-free list of elements of `l`
missing from `r`. -/
def pySetDiff (l r : List (List Char)) : List (List Char) :=
  (l.filter (fun x => decide (x ∉ r))).dedup

/-- Python `' $\times$ '.join` (the separator of display names; the
backslash is literal). -/
def timesSep : List Char := pstr " $\\times$ "

/-- `' $\times$ '.join(clean_vars_in_interaction)`. -/
def joinTimes : List (List Char) → List Char
  | [] => []
  | [p] => p
  | p :: q :: rest => p ++ timesSep ++ joinTimes (q :: rest)

/-- The loop body of `generate_covariate_latexdict` (lines 85-110 of
`src/helpers.py`) for one covariate: split on `:`; for an interaction
term check that all lower-order interactions are among the covariate
names and that the variables stand in the order `sorted` by the key
above, raising the corresponding assertion otherwise; finally replace
each variable by `latexdict.get(var, var)` and join with the
multiplication separator.  The substitution step follows the asserts in
the source, so it appears in both branches in which no assertion
fired. -/
def processCovariate (latexdict : List (List Char × List Char))
    (cov_names : List (List Char)) (cov_name : List Char) :
    Except LatexdictError (List Char) :=
  let vars_in_interaction := splitColon cov_name
  if 1 < vars_in_interaction.length then
    let lower_order_interactions := generate_lower_order_interactions vars_in_interaction
    if lower_order_interactions.all (fun t => decide (t ∈ cov_names)) then
      let correct_order_vars := pySorted (pySortKey (dictKeys latexdict)) vars_in_interaction
      if vars_in_interaction = correct_order_vars then
        .ok (joinTimes (vars_in_interaction.map (dictGetD latexdict)))
      else
        .error (.wrongOrder cov_name (joinColon vars_in_interaction)
          (joinColon correct_order_vars))
    else
      .error (.missingLowerOrder cov_name (pySetDiff lower_order_interactions cov_names))
  else
    .ok (joinTimes (vars_in_interaction.map (dictGetD latexdict)))

/-- `generate_covariate_latexdict` from `src/helpers.py` (lines 70-112):
the resulting dict as the ordered list of (covariate, display string)
pairs — the source never revisits a key, duplicate covariates would
simply overwrite with the same value — or the first assertion failure
of the loop. -/
def generate_covariate_latexdict (latexdict : List (List Char × List Char))
    (cov_names : List (List Char)) :
    Except LatexdictError (List (List Char × List Char)) :=
  cov_names.mapM (fun cov_name =>
    (processCovariate latexdict cov_names cov_name).map (fun s => (cov_name, s)))

/-- The alphabet the spec asserts for sanitized filenames: lowercase
ASCII letters `a`-`z` (97-122), digits `0`-`9` (48-57) and the
underscore (95). -/
def isCleanChar (c : Char) : Bool :=
  (97 ≤ c.toNat && c.toNat ≤ 122) || (48 ≤ c.toNat && c.toNat ≤ 57) || c.toNat = 95

/-- No two consecutive characters of the string are both underscores. -/
def noConsecutiveUnderscores (s : List Char) : Prop :=
  List.Chain' (fun a b => ¬(a = '_' ∧ b = '_')) s

/-- A model of a fitted-regression model as the pseudo-R² block of
`savereg` sees it: the attribute `prsquasecond`, present (`some`) or
absent (`none`).  R² values are an abstract type `α`. -/
structure RegModel (α : Type) where
  prsquasecond : Option α
deriving DecidableEq

/-- The explanatory footnote appended by `savereg`; the Python literal
reads `$R^2$ reports McFadden`, an apostrophe (code point 39), then
`s pseudo-$R^2$.` -/
def pseudoR2Note : List Char :=
  pstr "$R^2$ reports McFadden" ++ [Char.ofNat 39] ++ pstr "s pseudo-$R^2$."

/-- The loop `for model, model_data in zip(stargazer.models,
stargazer.model_data)` of the pseudo-R² block (lines 149-152 of
`src/helpers.py`), carried out over the two lists with the truncation
of `zip`: entries of the data list beyond the models keep their old r2
(they are returned unchanged).  Reading `model.prsquasecond` on a model
lacking the attribute raises `AttributeError`;
`add_custom_notes(custom_notes + [note])` replaces the notes by
`notes ++ [note]` and only fires while the note is not yet present. -/
def pseudoR2Loop {α : Type} :
    List (RegModel α) → List α → List (List Char) →
    Except (List Char) (List α × List (List Char))
  | [], ds, notes => .ok (ds, notes)
  | _ :: _, [], notes => .ok ([], notes)
  | m :: ms, _d :: ds, notes =>
    match m.prsquasecond with
    | none => .error (pstr "AttributeError: model has no attribute prsquasecond")
    | some v =>
      let notes' := if pseudoR2Note ∈ notes then notes else notes ++ [pseudoR2Note]
      match pseudoR2Loop ms ds notes' with
      | .error e => .error e
      | .ok (ds', nf) => .ok (v :: ds', nf)

/-- Lines 147-152 of `src/helpers.py`: the pseudo-R² block of `savereg`.
When any model exposes `prsquasecond`, every `model_data['r2']` is
overwritten by its own model's attribute (raising when a model lacks
it) and the footnote is appended while absent; otherwise the data and
notes pass through unchanged.  Returns the final r2 entries and custom
notes. -/
def savereg_pseudoR2 {α : Type} (models : List (RegModel α))
    (modelDataR2 : List α) (customNotes : List (List Char)) :
    Except (List Char) (List α × List (List Char)) :=
  if models.any (fun m => m.prsquasecond.isSome) then
    pseudoR2Loop models modelDataR2 customNotes
  else
    .ok (modelDataR2, customNotes)

/-- A matplotlib axes object as `savefig` sees it: the `title` and
`suptitle` attributes, each absent (`none`, so that `hasattr` is false
and access raises) or present with its visibility flag. -/
structure AxModel where
  title : Option Bool
  suptitle : Option Bool
deriving DecidableEq

/-- `plt.setp(ax.title, visible=b)`: reads the attribute `ax.title`
(raising `AttributeError` when the axes has none) and sets its
visibility. -/
def setTitleVisible (ax : AxModel) (b : Bool) : Except (List Char) AxModel :=
  match ax.title with
  | some _ => .ok { ax with title := some b }
  | none => .error (pstr "AttributeError: object has no attribute title")

/-- `savefig` from `src/helpers.py` (lines 174-201), reduced to its
observable effects: the final axes state and the list of files saved in
order, or the exception raised.  When `hasattr(ax, 'title')` the title
is hidden, the `_notitle.pdf` variant saved and the title made visible
again; otherwise when `hasattr(ax, 'suptitle')` the source again passes
`ax.title` to `plt.setp` in that branch (lines 193-195); finally the
`.pdf` and `.png` files are saved. -/
def savefig (ax : AxModel) (filename figurepath : List Char) :
    Except (List Char) (AxModel × List (List Char)) := do
  let fn := clean_filename filename
  let (ax1, files1) ←
    if ax.title.isSome then do
      let axHidden ← setTitleVisible ax false
      let axShown ← setTitleVisible axHidden true
      pure (axShown, [figurepath ++ fn ++ pstr "_notitle.pdf"])
    else if ax.suptitle.isSome then do
      let axHidden ← setTitleVisible ax false
      let axShown ← setTitleVisible axHidden true
      pure (axShown, [figurepath ++ fn ++ pstr "_notitle.pdf"])
    else
      pure (ax, [])
  pure (ax1, files1 ++ [figurepath ++ fn ++ pstr ".pdf", figurepath ++ fn ++ pstr ".png"])

/-- Helper: `Char.toNat` inverts `Char.ofNat` below the surrogate range. -/
theorem toNat_charOfNat {n : Nat} (h : n < 55296) : (Char.ofNat n).toNat = n := by
  simp only [Char.ofNat, Nat.isValidChar, Char.ofNatAux, Char.toNat]
  rw [dif_pos (Or.inl h)]
  rfl

/-- Helper: the Python lower-case map is idempotent — its image contains
no uppercase letter of the modelled ranges. -/
theorem pyLowerChar_idem (c : Char) : pyLowerChar (pyLowerChar c) = pyLowerChar c := by
  by_cases h1 : 65 ≤ c.toNat ∧ c.toNat ≤ 90
  · have e : pyLowerChar c = Char.ofNat (c.toNat + 32) := by
      simp only [pyLowerChar]; rw [if_pos h1]
    have h32 : (Char.ofNat (c.toNat + 32)).toNat = c.toNat + 32 := toNat_charOfNat (by omega)
    rw [e]
    simp only [pyLowerChar]
    rw [if_neg (by rw [h32]; omega), if_neg (by rw [h32]; omega)]
  · by_cases h2 : 192 ≤ c.toNat ∧ c.toNat ≤ 222 ∧ c.toNat ≠ 215
    · have e : pyLowerChar c = Char.ofNat (c.toNat + 32) := by
        simp only [pyLowerChar]; rw [if_neg h1, if_pos h2]
      have h32 : (Char.ofNat (c.toNat + 32)).toNat = c.toNat + 32 := toNat_charOfNat (by omega)
      rw [e]
      simp only [pyLowerChar]
      rw [if_neg (by rw [h32]; omega), if_neg (by rw [h32]; omega)]
    · have e : pyLowerChar c = c := by
        simp only [pyLowerChar]; rw [if_neg h1, if_neg h2]
      simp only [e]

/-- Helper: on ASCII input the Python lower-case map yields an ASCII
character that is not an uppercase letter. -/
theorem pyLowerChar_ascii {c : Char} (h : c.toNat < 128) :
    (pyLowerChar c).toNat < 128 ∧ ¬(65 ≤ (pyLowerChar c).toNat ∧ (pyLowerChar c).toNat ≤ 90) := by
  by_cases h1 : 65 ≤ c.toNat ∧ c.toNat ≤ 90
  · have e : pyLowerChar c = Char.ofNat (c.toNat + 32) := by
      simp only [pyLowerChar]; rw [if_pos h1]
    rw [e, toNat_charOfNat (by omega)]
    omega
  · have e : pyLowerChar c = c := by
      simp only [pyLowerChar]; rw [if_neg h1, if_neg (by omega)]
    rw [e]
    omega

/-- Helper: unfolding equation of `collapseUnderscores` at a cons. -/
theorem collapseUnderscores_cons (a : Char) (t : List Char) :
    collapseUnderscores (a :: t) =
      if a = '_' ∧ (collapseUnderscores t).head? = some '_' then collapseUnderscores t
      else a :: collapseUnderscores t := rfl

/-- Helper: collapsing underscores introduces no new characters. -/
theorem mem_collapseUnderscores {c : Char} :
    ∀ {s : List Char}, c ∈ collapseUnderscores s → c ∈ s := by
  intro s
  induction s with
  | nil => intro h; simp [collapseUnderscores] at h
  | cons a t ih =>
    rw [collapseUnderscores_cons]
    split
    · intro h; exact List.mem_cons_of_mem _ (ih h)
    · intro h
      rcases List.mem_cons.mp h with h | h
      · exact List.mem_cons.mpr (Or.inl h)
      · exact List.mem_cons_of_mem _ (ih h)

/-- Helper: the result of collapsing underscore runs has no two
consecutive underscores. -/
theorem chain'_collapseUnderscores (s : List Char) :
    noConsecutiveUnderscores (collapseUnderscores s) := by
  induction s with
  | nil => simp [collapseUnderscores, noConsecutiveUnderscores]
  | cons a t ih =>
    rw [collapseUnderscores_cons]
    split
    · exact ih
    · rename_i hcond
      refine List.chain'_cons'.mpr ⟨?_, ih⟩
      intro y hy
      intro hab
      exact hcond ⟨hab.1, by rw [hy, hab.2]⟩

/-- Helper: a string with no two consecutive underscores is unchanged by
collapsing underscore runs. -/
theorem collapseUnderscores_eq_self :
    ∀ {s : List Char}, noConsecutiveUnderscores s → collapseUnderscores s = s := by
  intro s
  induction s with
  | nil => intro _; rfl
  | cons a t ih =>
    intro h
    have ht : noConsecutiveUnderscores t := h.tail
    have hcond : ¬(a = '_' ∧ t.head? = some '_') := by
      cases t with
      | nil => simp
      | cons b t' =>
        rintro ⟨ha, hb⟩
        simp only [List.head?_cons, Option.some.injEq] at hb
        exact (List.chain'_cons.mp h).1 ⟨ha, hb⟩
    rw [collapseUnderscores_cons, ih ht, if_neg hcond]

/-- Helper: characters of `replace('/', '_over_')` output come from the
replacement string or from the input. -/
theorem mem_replaceSlash {c : Char} {l : List Char} (h : c ∈ replaceSlash l) :
    c ∈ pstr "_over_" ∨ c ∈ l := by
  rcases List.mem_flatMap.mp h with ⟨d, hd, hc⟩
  by_cases h' : d = '/'
  · rw [if_pos h'] at hc
    exact Or.inl hc
  · rw [if_neg h'] at hc
    have : c = d := List.mem_singleton.mp hc
    rw [this]
    exact Or.inr hd

/-- Helper: characters after lower-casing and space replacement are the
underscore or lower-cased input characters. -/
theorem mem_lower_space {c : Char} {s : List Char}
    (h : c ∈ replaceChar ' ' '_' (s.map pyLowerChar)) :
    c = '_' ∨ ∃ e ∈ s, c = pyLowerChar e := by
  rcases List.mem_map.mp h with ⟨d, hd, hc⟩
  rcases List.mem_map.mp hd with ⟨e, he, hde⟩
  by_cases h' : d = ' '
  · left
    rw [← hc, if_pos h']
  · right
    refine ⟨e, he, ?_⟩
    rw [← hc, if_neg h', ← hde]

/-- Helper: every character of a cleaned filename is a word character. -/
theorem pyIsWordChar_clean_filename {s : List Char} :
    ∀ c ∈ clean_filename s, pyIsWordChar c = true := by
  intro c hc
  simp only [clean_filename, removeNonWord] at hc
  exact (List.mem_filter.mp (mem_collapseUnderscores hc)).2

/-- Helper: every character of a cleaned filename is fixed by the
lower-case map. -/
theorem pyLowerChar_fixed_clean_filename {s : List Char} :
    ∀ c ∈ clean_filename s, pyLowerChar c = c := by
  intro c hc
  simp only [clean_filename, removeNonWord] at hc
  have hmem := (List.mem_filter.mp (mem_collapseUnderscores hc)).1
  rcases mem_replaceSlash hmem with hov | hf1
  · have hall : ∀ x ∈ pstr "_over_", pyLowerChar x = x := by decide
    exact hall c hov
  · rcases mem_lower_space hf1 with rfl | ⟨e, _, rfl⟩
    · decide
    · exact pyLowerChar_idem e

/-- Helper: slash replacement leaves a slash-free string unchanged. -/
theorem replaceSlash_eq_self :
    ∀ {l : List Char}, (∀ c ∈ l, ¬(c = '/')) → replaceSlash l = l := by
  intro l
  induction l with
  | nil => intro _; rfl
  | cons a t ih =>
    intro h
    have ha : ¬(a = '/') := h a (List.mem_cons_self a t)
    simp only [replaceSlash] at ih ⊢
    rw [List.flatMap_cons, if_neg ha, List.singleton_append,
      ih (fun c hc => h c (List.mem_cons_of_mem a hc))]

/-- Helper: a string of word characters, each fixed under lower-casing,
with no two consecutive underscores, is a fixed point of
`clean_filename`. -/
theorem clean_filename_fixed {out : List Char}
    (hword : ∀ c ∈ out, pyIsWordChar c = true)
    (hlow : ∀ c ∈ out, pyLowerChar c = c)
    (hchain : noConsecutiveUnderscores out) :
    clean_filename out = out := by
  have h1 : out.map pyLowerChar = out := by
    have := List.map_congr_left (f := pyLowerChar) (g := id) (l := out)
      (fun a ha => hlow a ha)
    rwa [List.map_id] at this
  have hnospace : ∀ c ∈ out, ¬(c = ' ') := by
    intro c hc h'
    have hw := hword c hc
    rw [h'] at hw
    exact absurd hw (by decide)
  have h2 : replaceChar ' ' '_' out = out := by
    simp only [replaceChar]
    have : out.map (fun c => if c = ' ' then '_' else c) = out.map id :=
      List.map_congr_left (fun a ha => by rw [if_neg (hnospace a ha)]; rfl)
    rwa [List.map_id] at this
  have hnoslash : ∀ c ∈ out, ¬(c = '/') := by
    intro c hc h'
    have hw := hword c hc
    rw [h'] at hw
    exact absurd hw (by decide)
  have h3 : replaceSlash out = out := replaceSlash_eq_self hnoslash
  have h4 : removeNonWord out = out := by
    simp only [removeNonWord]
    exact List.filter_eq_self.mpr hword
  have h5 : collapseUnderscores out = out := collapseUnderscores_eq_self hchain
  simp only [clean_filename]
  rw [h1, h2, h3, h4, h5]

/-- Helper: congruence for `flatMap` over the members of a list. -/
theorem flatMap_congr_mem {α β : Type} {l : List α} {f g : α → List β}
    (h : ∀ a ∈ l, f a = g a) : l.flatMap f = l.flatMap g := by
  induction l with
  | nil => rfl
  | cons a t ih =>
    rw [List.flatMap_cons, List.flatMap_cons, h a (List.mem_cons_self a t),
      ih (fun b hb => h b (List.mem_cons_of_mem a hb))]

/-- Helper: removing the element at index `i < length` shortens the list
by one. -/
theorem length_take_append_drop {α : Type} {i : Nat} {l : List α} (h : i < l.length) :
    (l.take i ++ l.drop (i + 1)).length = l.length - 1 := by
  rw [List.length_append, List.length_take, List.length_drop,
    Nat.min_eq_left (Nat.le_of_lt h)]
  omega

/-- Helper: one more unit of sufficient fuel does not change `gloAux`. -/
theorem gloAux_succ (n : Nat) :
    ∀ vars : List (List Char), vars.length ≤ n → gloAux (n + 1) vars = gloAux n vars := by
  induction n with
  | zero =>
    intro vars h
    have hnil : vars = [] := List.eq_nil_of_length_eq_zero (Nat.le_zero.mp h)
    subst hnil
    rfl
  | succ n ih =>
    intro vars h
    show gloAux (n + 1 + 1) vars = gloAux (n + 1) vars
    simp only [gloAux]
    apply flatMap_congr_mem
    intro i hi
    have hilt : i < vars.length := List.mem_range.mp hi
    have hlen : (vars.take i ++ vars.drop (i + 1)).length = vars.length - 1 :=
      length_take_append_drop hilt
    congr 1
    split
    · exact ih _ (by omega)
    · rfl

/-- Helper: any fuel at least the length of the list computes
`generate_lower_order_interactions`, so the fuelled recursion is
faithful to the recursion of the source. -/
theorem gloAux_fuel :
    ∀ {m : Nat} {vars : List (List Char)}, vars.length ≤ m →
      gloAux m vars = generate_lower_order_interactions vars := by
  intro m
  induction m with
  | zero =>
    intro vars h
    have hnil : vars = [] := List.eq_nil_of_length_eq_zero (Nat.le_zero.mp h)
    subst hnil
    rfl
  | succ m ih =>
    intro vars h
    by_cases he : vars.length = m + 1
    · simp only [generate_lower_order_interactions, he]
    · have hle : vars.length ≤ m := by omega
      rw [gloAux_succ m vars hle]
      exact ih hle

/-- Helper: every string in the fuelled enumeration is the colon-join of
a non-empty proper sublist of the input, provided the fuel suffices. -/
theorem gloAux_shape :
    ∀ (n : Nat) (vars : List (List Char)), vars.length ≤ n →
      ∀ s ∈ gloAux n vars, ∃ sub : List (List Char),
        sub ≠ [] ∧ sub.Sublist vars ∧ sub.length < vars.length ∧ s = joinColon sub := by
  intro n
  induction n with
  | zero =>
    intro vars _ s hs
    simp [gloAux] at hs
  | succ n ih =>
    intro vars hlen s hs
    simp only [gloAux] at hs
    rcases List.mem_flatMap.mp hs with ⟨i, hi, hbody⟩
    have hilt : i < vars.length := List.mem_range.mp hi
    have hsub : (vars.take i ++ vars.drop (i + 1)).Sublist vars := by
      have h1 : (vars.take i ++ vars.drop (i + 1)).Sublist
          (vars.take i ++ vars[i] :: vars.drop (i + 1)) :=
        List.Sublist.append_left (List.sublist_cons_self _ _) _
      rw [← List.drop_eq_getElem_cons hilt, List.take_append_drop] at h1
      exact h1
    have hlength : (vars.take i ++ vars.drop (i + 1)).length = vars.length - 1 :=
      length_take_append_drop hilt
    rcases List.mem_append.mp hbody with hemit | hrec
    · by_cases hne : vars.take i ++ vars.drop (i + 1) = []
      · rw [if_pos hne] at hemit
        simp at hemit
      · rw [if_neg hne] at hemit
        exact ⟨_, hne, hsub, by omega, List.mem_singleton.mp hemit⟩
    · by_cases hgt : 1 < (vars.take i ++ vars.drop (i + 1)).length
      · rw [if_pos hgt] at hrec
        rcases ih _ (by omega) s hrec with ⟨sub, hne, hsubl, hlt, hjoin⟩
        exact ⟨sub, hne, hsubl.trans hsub, by omega, hjoin⟩
      · rw [if_neg hgt] at hrec
        simp at hrec

/-- Helper: unfolding equation of `splitColon` at a cons. -/
theorem splitColon_cons (c : Char) (t : List Char) :
    splitColon (c :: t) =
      match splitColon t with
      | [] => [[c]]
      | a :: rest => if c = ':' then [] :: a :: rest else (c :: a) :: rest := rfl

/-- Helper: splitting a colon-free string yields the singleton list. -/
theorem splitColon_no_colon :
    ∀ {y : List Char}, ':' ∉ y → splitColon y = [y] := by
  intro y
  induction y with
  | nil => intro _; rfl
  | cons c t ih =>
    intro hy
    have hc : ¬(c = ':') := fun h => hy (by rw [← h]; exact List.mem_cons_self c t)
    have ht : ':' ∉ t := fun h => hy (List.mem_cons_of_mem c h)
    rw [splitColon_cons, ih ht]
    simp [hc]

/-- Helper: splitting `x ++ ":" ++ y` for colon-free `x` and `y` yields
exactly the two parts. -/
theorem splitColon_pair :
    ∀ {x y : List Char}, ':' ∉ x → ':' ∉ y → splitColon (x ++ ':' :: y) = [x, y] := by
  intro x y hx hy
  induction x with
  | nil =>
    rw [List.nil_append, splitColon_cons, splitColon_no_colon hy]
    simp
  | cons c t ih =>
    have hc : ¬(c = ':') := fun h => hx (by rw [← h]; exact List.mem_cons_self c t)
    have ht : ':' ∉ t := fun h => hx (List.mem_cons_of_mem c h)
    rw [List.cons_append, splitColon_cons, ih ht]
    simp [hc]

/-- Helper: once the footnote is present and every remaining model
exposes the attribute, the zip loop overwrites each r2 entry with its
own model's value, keeps the data tail beyond the models, and leaves the
notes unchanged. -/
theorem pseudoR2Loop_of_mem {α : Type} :
    ∀ (ms : List (RegModel α)) (ds : List α) (notes : List (List Char)),
      (∀ m ∈ ms, m.prsquasecond.isSome) → pseudoR2Note ∈ notes →
      pseudoR2Loop ms ds notes =
        .ok ((ms.zip ds).map (fun p => p.1.prsquasecond.getD p.2) ++ ds.drop ms.length,
          notes) := by
  intro ms
  induction ms with
  | nil =>
    intro ds notes _ _
    simp [pseudoR2Loop]
  | cons m ms ih =>
    intro ds notes hall hmem
    cases ds with
    | nil => simp [pseudoR2Loop]
    | cons d ds =>
      obtain ⟨v, hv⟩ := Option.isSome_iff_exists.mp (hall m (List.mem_cons_self m ms))
      simp only [pseudoR2Loop, hv]
      rw [if_pos hmem,
        ih ds notes (fun m' hm' => hall m' (List.mem_cons_of_mem _ hm')) hmem]
      simp [hv]

/-- Claim C1, counterexample: on input `["A", "B", "C"]` the generator
does not return `["A:B", "A:C", "B:C"]` — the loop omits index 0 first
and the recursion also emits single variables. -/
theorem glo_ABC_ne_claimed :
    generate_lower_order_interactions [pstr "A", pstr "B", pstr "C"] ≠
      [pstr "A:B", pstr "A:C", pstr "B:C"] := by decide

/-- Claim C1, amended: on input `["A", "B", "C"]` the generator returns
exactly `["B:C", "C", "B", "A:C", "C", "A", "A:B", "B", "A"]`, in that
order — omission of the first variable first, then the second, then the
third, each omission directly followed by its recursive expansion, with
single-variable terms included. -/
theorem glo_ABC_eval :
    generate_lower_order_interactions [pstr "A", pstr "B", pstr "C"] =
      [pstr "B:C", pstr "C", pstr "B", pstr "A:C", pstr "C", pstr "A",
       pstr "A:B", pstr "B", pstr "A"] := by decide

/-- Claim C2, counterexample: for the two-variable input `["A", "B"]`
the output contains the bare string `"B"`, which contains no colon and
hence is not the colon-join of two or more variables. -/
theorem glo_pair_single_term :
    pstr "B" ∈ generate_lower_order_interactions [pstr "A", pstr "B"] ∧
    ':' ∉ pstr "B" := by decide

/-- Claim C2, amended: for every input list of two or more variable
names, every string emitted by the generator is the colon-join of a
non-empty proper sublist of the input — the emission guard only
excludes the empty term, so single-variable terms are emitted too. -/
theorem glo_emits_nonempty_proper_sublists (vars : List (List Char))
    (_hlen : 2 ≤ vars.length) :
    ∀ s ∈ generate_lower_order_interactions vars, ∃ sub : List (List Char),
      sub ≠ [] ∧ sub.Sublist vars ∧ sub.length < vars.length ∧ s = joinColon sub :=
  fun s hs => gloAux_shape vars.length vars (Nat.le_refl _) s hs

/-- Witness for the amended claim C2 at the concrete input
`["A", "B"]` and the emitted string `"B"`. -/
theorem glo_emits_nonempty_proper_sublists_witness :
    ∃ sub : List (List Char), sub ≠ [] ∧ sub.Sublist [pstr "A", pstr "B"] ∧
      sub.length < ([pstr "A", pstr "B"]).length ∧ pstr "B" = joinColon sub :=
  glo_emits_nonempty_proper_sublists [pstr "A", pstr "B"] (by decide)
    (pstr "B") (by decide)

/-- Claim C6: evaluation of the model at an axes object that has a
super-title but no title attribute — the suptitle branch of the source
passes the non-existent `ax.title` to `plt.setp`, so the call raises
`AttributeError` instead of hiding the super-title, saving the no-title
variant and restoring visibility. -/
theorem savefig_suptitle_raises :
    savefig (AxModel.mk none (some true)) (pstr "fig") (pstr "out_") =
      .error (pstr "AttributeError: object has no attribute title") := rfl

/-- Claim C9: `clean_filename` is idempotent on every string, and on
the concrete input `"My Plot/V2!!"` it returns `"my_plot_over_v2"`. -/
theorem clean_filename_idem_and_example :
    (∀ s : List Char, clean_filename (clean_filename s) = clean_filename s) ∧
    clean_filename (pstr "My Plot/V2!!") = pstr "my_plot_over_v2" := by
  constructor
  · intro s
    have hchain : noConsecutiveUnderscores (clean_filename s) := by
      simp only [clean_filename]
      exact chain'_collapseUnderscores _
    exact clean_filename_fixed pyIsWordChar_clean_filename
      pyLowerChar_fixed_clean_filename hchain
  · decide

/-- Claim C8, counterexample: on the non-ASCII input `é` (code point
233), a word character for Python regular expressions, the output is
`é` itself, which lies outside the alphabet `[a-z0-9_]`. -/
theorem clean_filename_nonascii :
    clean_filename [Char.ofNat 233] = [Char.ofNat 233] ∧
    isCleanChar (Char.ofNat 233) = false := by decide

/-- Claim C8, amended: for every input string of ASCII characters, the
output of `clean_filename` contains only characters from `[a-z0-9_]`
and contains no two consecutive underscores. -/
theorem clean_filename_ascii_alphabet (s : List Char)
    (hascii : ∀ c ∈ s, c.toNat < 128) :
    (∀ c ∈ clean_filename s, isCleanChar c = true) ∧
    noConsecutiveUnderscores (clean_filename s) := by
  constructor
  · intro c hc
    have hword := pyIsWordChar_clean_filename c hc
    simp only [clean_filename, removeNonWord] at hc
    have hmem := (List.mem_filter.mp (mem_collapseUnderscores hc)).1
    have hfacts : c.toNat < 128 ∧ ¬(65 ≤ c.toNat ∧ c.toNat ≤ 90) := by
      rcases mem_replaceSlash hmem with hov | hf1
      · have hall : ∀ x ∈ pstr "_over_",
            x.toNat < 128 ∧ ¬(65 ≤ x.toNat ∧ x.toNat ≤ 90) := by decide
        exact hall c hov
      · rcases mem_lower_space hf1 with rfl | ⟨e, he, rfl⟩
        · decide
        · exact pyLowerChar_ascii (hascii e he)
    simp only [pyIsWordChar, Bool.or_eq_true, Bool.and_eq_true,
      decide_eq_true_eq] at hword
    simp only [isCleanChar, Bool.or_eq_true, Bool.and_eq_true, decide_eq_true_eq]
    omega
  · simp only [clean_filename]
    exact chain'_collapseUnderscores _

/-- Witness for the amended claim C8 at the concrete ASCII input
`"My Plot/V2!!"`. -/
theorem clean_filename_ascii_alphabet_witness :
    (∀ c ∈ pstr "My Plot/V2!!", c.toNat < 128) ∧
    ((∀ c ∈ clean_filename (pstr "My Plot/V2!!"), isCleanChar c = true) ∧
      noConsecutiveUnderscores (clean_filename (pstr "My Plot/V2!!"))) :=
  ⟨by decide, clean_filename_ascii_alphabet _ (by decide)⟩

/-- Claim C10: `Capitalize` raises `IndexError` on the empty string,
and on every non-empty string returns the first character title-cased
followed by the rest of the string unchanged. -/
theorem Capitalize_empty_and_cons :
    Capitalize [] = .error (pstr "IndexError: string index out of range") ∧
    ∀ (c : Char) (cs : List Char), Capitalize (c :: cs) = .ok (pyTitleChar c ++ cs) := by
  constructor
  · rfl
  · intro c cs
    simp [Capitalize, pyGetChar, pyCapitalize]

/-- Claim C3, counterexample: with `latexdict` keys ordered `[A, B]`
and covariate list `["A", "B", "A:B"]`, the function does not succeed:
the sort key negates the key index, so validation requires the reverse
key order `"B:A"` and the covariate `"A:B"` trips the order
assertion. -/
theorem gcl_AB_forward_keys_fails :
    generate_covariate_latexdict [(pstr "A", pstr "Alpha"), (pstr "B", pstr "Beta")]
      [pstr "A", pstr "B", pstr "A:B"] =
      .error (.wrongOrder (pstr "A:B") (pstr "A:B") (pstr "B:A")) := rfl

/-- Claim C3, amended: with `latexdict` keys ordered `[B, A]` (values
`"Beta"`, `"Alpha"`) and covariate list `["A", "B", "A:B"]`, the
function succeeds and maps the covariate `"A:B"` to the display string
`"Alpha $\times$ Beta"`. -/
theorem gcl_AB_reversed_keys_succeeds :
    generate_covariate_latexdict [(pstr "B", pstr "Beta"), (pstr "A", pstr "Alpha")]
      [pstr "A", pstr "B", pstr "A:B"] =
      .ok [(pstr "A", pstr "Alpha"), (pstr "B", pstr "Beta"),
        (pstr "A:B", pstr "Alpha $\\times$ Beta")] := rfl

/-- Claim C4, counterexample: with the display-name mapping's keys
ordered `[A, B]` and all lower-order terms present, the covariate
`"B:A"` passes order validation (the required order is the reverse of
the key order) and the function succeeds. -/
theorem gcl_BA_forward_keys_succeeds :
    generate_covariate_latexdict [(pstr "A", pstr "Alpha"), (pstr "B", pstr "Beta")]
      [pstr "A", pstr "B", pstr "B:A"] =
      .ok [(pstr "A", pstr "Alpha"), (pstr "B", pstr "Beta"),
        (pstr "B:A", pstr "Beta $\\times$ Alpha")] := rfl

/-- Claim C4, amended: with the display-name mapping's keys ordered
`[B, A]` (and all required lower-order terms present in the covariate
list), the function raises an order-validation failure for the
covariate `"B:A"`, reporting that the required order is `"A:B"`. -/
theorem gcl_BA_reversed_keys_fails :
    generate_covariate_latexdict [(pstr "B", pstr "Beta"), (pstr "A", pstr "Alpha")]
      [pstr "A", pstr "B", pstr "B:A"] =
      .error (.wrongOrder (pstr "B:A") (pstr "B:A") (pstr "A:B")) := rfl

/-- Helper: the two-variable interaction of colon-free variables has
exactly the two single variables as lower-order interactions, the
omitted-last one first. -/
theorem glo_two_vars (x y : List Char) :
    generate_lower_order_interactions [x, y] = [y, x] := rfl

/-- Claim C5: for any two-variable interaction covariate `x:y` (with
`x`, `y` colon-free and distinct) whose constituent variables are
absent from the covariate list `[x:y]`, the function halts with a
missing-lower-order failure naming the offending covariate and the
missing terms, whatever the display-name mapping. -/
theorem gcl_missing_lower_order (latexdict : List (List Char × List Char))
    (x y : List Char) (hx : ':' ∉ x) (hy : ':' ∉ y) (hxy : x ≠ y) :
    generate_covariate_latexdict latexdict [x ++ ':' :: y] =
      .error (.missingLowerOrder (x ++ ':' :: y) [y, x]) := by
  have hxm : x ∉ [x ++ ':' :: y] := by
    intro h
    have := congrArg List.length (List.mem_singleton.mp h)
    simp at this
  have hym : y ∉ [x ++ ':' :: y] := by
    intro h
    have := congrArg List.length (List.mem_singleton.mp h)
    simp at this
    omega
  have hproc : processCovariate latexdict [x ++ ':' :: y] (x ++ ':' :: y) =
      .error (.missingLowerOrder (x ++ ':' :: y) [y, x]) := by
    simp only [processCovariate]
    rw [splitColon_pair hx hy]
    simp only [glo_two_vars]
    have hall : ([y, x].all (fun t => decide (t ∈ [x ++ ':' :: y]))) = false := by
      simp [hxm, hym]
    rw [hall]
    have hdiff : pySetDiff [y, x] [x ++ ':' :: y] = [y, x] := by
      simp only [pySetDiff]
      have hyx : ¬(y = x) := fun h => hxy h.symm
      have hyne : ¬(y = x ++ ':' :: y) := fun h => hym (List.mem_singleton.mpr h)
      have hxne : ¬(x = x ++ ':' :: y) := fun h => hxm (List.mem_singleton.mpr h)
      rw [List.filter_cons_of_pos (by simp [hyne]),
        List.filter_cons_of_pos (by simp [hxne]), List.filter_nil,
        List.dedup_cons_of_not_mem (by simp [hyx])]
      simp
    simp [hdiff]
  simp [generate_covariate_latexdict, List.mapM, List.mapM.loop, hproc,
    Except.map, Functor.map]

/-- Witness for claim C5 at the concrete covariate list `["A:B"]` with
an empty display-name mapping. -/
theorem gcl_missing_lower_order_witness :
    (':' ∉ pstr "A") ∧ (':' ∉ pstr "B") ∧ pstr "A" ≠ pstr "B" ∧
    generate_covariate_latexdict [] [pstr "A" ++ ':' :: pstr "B"] =
      .error (.missingLowerOrder (pstr "A" ++ ':' :: pstr "B") [pstr "B", pstr "A"]) :=
  ⟨by decide, by decide, by decide,
    gcl_missing_lower_order [] (pstr "A") (pstr "B") (by decide) (by decide) (by decide)⟩

/-- Claim C7, counterexample: with two models of which only the first
exposes a pseudo-R² value, the block enters (the `any` test holds) but
raises `AttributeError` on the second model instead of overwriting
every displayed R². -/
theorem savereg_pseudoR2_partial_raises :
    ([RegModel.mk (some (1 : Int)), RegModel.mk none].any
        (fun m => m.prsquasecond.isSome)) = true ∧
    savereg_pseudoR2 [RegModel.mk (some (1 : Int)), RegModel.mk none] [10, 20] [] =
      .error (pstr "AttributeError: model has no attribute prsquasecond") :=
  ⟨rfl, rfl⟩

/-- Claim C7, amended: if every model exposes a pseudo-R² value (and
there is at least one model and one data entry, and the footnote is not
yet among the custom notes), every displayed R² is overwritten with its
own model's pseudo-R², and the explanatory footnote is appended to the
custom notes exactly once, regardless of the number of models. -/
theorem savereg_pseudoR2_all_models {α : Type} (models : List (RegModel α))
    (modelDataR2 : List α) (customNotes : List (List Char))
    (hall : ∀ m ∈ models, m.prsquasecond.isSome)
    (hmodels : models ≠ []) (hdata : modelDataR2 ≠ [])
    (hnew : pseudoR2Note ∉ customNotes) :
    savereg_pseudoR2 models modelDataR2 customNotes =
      .ok ((models.zip modelDataR2).map (fun p => p.1.prsquasecond.getD p.2) ++
          modelDataR2.drop models.length,
        customNotes ++ [pseudoR2Note]) ∧
    (customNotes ++ [pseudoR2Note]).count pseudoR2Note = 1 := by
  constructor
  · cases models with
    | nil => exact absurd rfl hmodels
    | cons m ms =>
      cases modelDataR2 with
      | nil => exact absurd rfl hdata
      | cons d ds =>
        obtain ⟨v, hv⟩ := Option.isSome_iff_exists.mp (hall m (List.mem_cons_self _ _))
        have hany : ((m :: ms).any (fun m => m.prsquasecond.isSome)) = true := by
          simp [List.any_cons, hv]
        simp only [savereg_pseudoR2]
        rw [if_pos hany]
        simp only [pseudoR2Loop, hv]
        rw [if_neg hnew,
          pseudoR2Loop_of_mem ms ds _
            (fun m' h => hall _ (List.mem_cons_of_mem _ h))
            (List.mem_append_right _ (List.mem_singleton.mpr rfl))]
        simp [hv]
  · rw [List.count_append, List.count_eq_zero.mpr hnew]
    simp

/-- Witness for the amended claim C7 at two models both exposing a
pseudo-R², two data entries and empty custom notes. -/
theorem savereg_pseudoR2_all_models_witness :
    savereg_pseudoR2 [RegModel.mk (some (1 : Int)), RegModel.mk (some 2)] [10, 20] [] =
      .ok ((([RegModel.mk (some (1 : Int)), RegModel.mk (some 2)].zip
            ([10, 20] : List Int)).map (fun p => p.1.prsquasecond.getD p.2) ++
          ([10, 20] : List Int).drop
            ([RegModel.mk (some (1 : Int)), RegModel.mk (some 2)].length),
        [] ++ [pseudoR2Note])) ∧
    (([] : List (List Char)) ++ [pseudoR2Note]).count pseudoR2Note = 1 :=
  savereg_pseudoR2_all_models [RegModel.mk (some (1 : Int)), RegModel.mk (some 2)]
    [10, 20] [] (by decide) (by decide) (by decide) (by decide)
